import Mathlib

/-!
Shallow embedding of the MaestroQuiz music-notation layout engine.

Sources embedded here:
- `getNoteStepsFromC4` from `constants.ts` (pitch arithmetic);
- the clef-aware `Staff` component from `components/Staff.tsx`
  (`renderNote`, `renderClef`, `renderSymbol` and the composition that
  decides staff-line and clef-glyph visibility), at its default
  `width = 300`, so the horizontal center is `150`;
- the `RenderData` record from `types.ts`.

Coordinates are integers (every constant in the source is an integer and
all arithmetic on the embedded paths stays integral at width 300).
-/

namespace MaestroQuiz

/-- Clef enumeration from `types.ts`: `'treble' | 'bass'`. -/
inductive Clef
  | treble
  | bass
deriving DecidableEq, Repr

/-- Note durations from `types.ts`:
`'whole' | 'half' | 'quarter' | 'eighth' | 'sixteenth' | 'thirty-second'`. -/
inductive NoteDuration
  | whole
  | half
  | quarter
  | eighth
  | sixteenth
  | thirtySecond
deriving DecidableEq, Repr

/-- Stem direction values used in `renderNote`: `'up' | 'down'`. -/
inductive StemDir
  | up
  | down
deriving DecidableEq, Repr

/-- Symbol type tag from `types.ts`: `'text' | 'shape'`. -/
inductive SymType
  | text
  | shape
deriving DecidableEq, Repr

/-- Drawable primitives of the rendered SVG scene.  Each constructor keeps
the numeric attributes the source writes literally:
- `line x1 y1 x2 y2`;
- `ellipse cx cy rx ry filled` — the notehead; the fixed `-15`-degree tilt
  transform, identical on every notehead, is not modelled;
- `qpath mx my qx qy ex ey` — a single-`Q` quadratic path
  `M mx my Q qx qy ex ey` (flags, fermata arc, tie), coordinates absolute
  (enclosing `translate` offsets already applied);
- `rect x y w h`;
- `circle cx cy r`;
- `text x y size centered value` — `centered` records
  `textAnchor="middle"`; `size` is the `fontSize` attribute, `0` when the
  source omits it. -/
inductive Prim
  | line (x1 y1 x2 y2 : Int)
  | ellipse (cx cy rx ry : Int) (filled : Bool)
  | qpath (mx my qx qy ex ey : Int)
  | rect (x y w h : Int)
  | circle (cx cy r : Int)
  | text (x y size : Int) (centered : Bool) (value : String)
deriving DecidableEq, Repr

/-- The note-letter base-offset table of `getNoteStepsFromC4`
(`{ 'C': 0, 'D': 1, 'E': 2, 'F': 3, 'G': 4, 'A': 5, 'B': 6 }`); `none`
models a lookup miss (the source would produce `undefined`/`NaN`). -/
def noteMap (s : String) : Option Int :=
  if s = "C" then some 0
  else if s = "D" then some 1
  else if s = "E" then some 2
  else if s = "F" then some 3
  else if s = "G" then some 4
  else if s = "A" then some 5
  else if s = "B" then some 6
  else none

/-- From `constants.ts`: `getNoteStepsFromC4(pitchName, octave) =
noteMap[pitchName.toUpperCase()] + (octave - 4) * 7`.  The `Option`
propagates a table miss; for the seven letters (either case) it is `some`. -/
def getNoteStepsFromC4 (pitchName : String) (octave : Int) : Option Int :=
  (noteMap (String.mk (pitchName.toList.map Char.toUpper))).map
    (fun baseStep => baseStep + (octave - 4) * 7)

/-- The pitch regex `^([A-G])(\d)$` of `renderNote` together with
`parseInt(pitch[2], 10)`: the string must be exactly one uppercase letter
`A`–`G` followed by exactly one digit; on success the captures are the
one-letter string and the digit's value. -/
def parsePitch (s : String) : Option (String × Int) :=
  match s.toList with
  | [c, d] =>
      if ('A' ≤ c ∧ c ≤ 'G') ∧ ('0' ≤ d ∧ d ≤ '9') then
        some (c.toString, ((d.toNat : Int) - ('0'.toNat : Int)))
      else none
  | _ => none

/-- Vertical notehead coordinate of `renderNote` (clef-aware variant):
`treble: 180 - (steps - 2) * 10`, `bass: 180 - (steps + 10) * 10`. -/
def noteY (clef : Clef) (steps : Int) : Int :=
  if clef = Clef.treble then 180 - (steps - 2) * 10 else 180 - (steps + 10) * 10

/-- Stem-direction pivot of `renderNote`:
`centerStep = clef === 'treble' ? 6 : -6`. -/
def centerStep (clef : Clef) : Int :=
  if clef = Clef.treble then 6 else -6

/-- From `renderNote`: `stemDirection = stepsFromC4 >= centerStep ? 'down' : 'up'`. -/
def stemDirection (steps : Int) (clef : Clef) : StemDir :=
  if centerStep clef ≤ steps then StemDir.down else StemDir.up

/-- The upward ledger-line loop of `renderNote`:
`for (let y = staffTop - 20; y >= noteY; y -= 20)`, entered with
`y = 80`. -/
def ledgerAbove (y ny : Int) : List Int :=
  if ny ≤ y then y :: ledgerAbove (y - 20) ny else []
termination_by (y - ny + 20).toNat
decreasing_by
  simp_wf
  omega

/-- The downward ledger-line loop of `renderNote`:
`for (let y = staffBottom + 20; y <= noteY; y += 20)`, entered with
`y = 200`. -/
def ledgerBelow (y ny : Int) : List Int :=
  if y ≤ ny then y :: ledgerBelow (y + 20) ny else []
termination_by (ny - y + 20).toNat
decreasing_by
  simp_wf
  omega

/-- Ledger-line y-coordinates computed by `renderNote` for a notehead at
`ny`, with `staffTop = 100` and `staffBottom = 180`. -/
def ledgerLines (ny : Int) : List Int :=
  (if ny < 100 then ledgerAbove (100 - 20) ny else []) ++
  (if 180 < ny then ledgerBelow (180 + 20) ny else [])

/-- The flag paths of `renderNote` (one to three `qpath`s depending on the
duration, mirrored by stem direction). -/
def flagPrims (dir : StemDir) (stemX stemEndY : Int) (d : NoteDuration) : List Prim :=
  match dir with
  | StemDir.up =>
      [Prim.qpath stemX stemEndY (stemX + 34) (stemEndY + 25) stemX (stemEndY + 50)] ++
      (if d = NoteDuration.sixteenth ∨ d = NoteDuration.thirtySecond then
        [Prim.qpath stemX (stemEndY + 15) (stemX + 34) (stemEndY + 40) stemX (stemEndY + 65)]
      else []) ++
      (if d = NoteDuration.thirtySecond then
        [Prim.qpath stemX (stemEndY + 30) (stemX + 34) (stemEndY + 55) stemX (stemEndY + 80)]
      else [])
  | StemDir.down =>
      [Prim.qpath stemX stemEndY (stemX + 34) (stemEndY - 25) stemX (stemEndY - 50)] ++
      (if d = NoteDuration.sixteenth ∨ d = NoteDuration.thirtySecond then
        [Prim.qpath stemX (stemEndY - 15) (stemX + 34) (stemEndY - 40) stemX (stemEndY - 65)]
      else []) ++
      (if d = NoteDuration.thirtySecond then
        [Prim.qpath stemX (stemEndY - 30) (stemX + 34) (stemEndY - 55) stemX (stemEndY - 80)]
      else [])

/-- The primitive list emitted by `renderNote` after a successful pitch
parse, at the default width (center x = 150, ledger half-width 20,
`stemHeight = 65`): ledger lines, then the notehead ellipse, then the stem
(absent for whole notes), then the flags (for sub-quarter durations). -/
def notePrims (steps : Int) (clef : Clef) (d : NoteDuration) : List Prim :=
  let ny := noteY clef steps
  let dir := stemDirection steps clef
  let stemX := if dir = StemDir.up then 150 + 14 else 150 - 14
  let stemStartY := ny + (if dir = StemDir.up then -5 else 5)
  let stemEndY := ny + (if dir = StemDir.up then -65 else 65)
  ((ledgerLines ny).map (fun y => Prim.line (150 - 20) y (150 + 20) y)) ++
  [Prim.ellipse 150 ny 16 11
    (if d = NoteDuration.whole ∨ d = NoteDuration.half then false else true)] ++
  (if d ≠ NoteDuration.whole then [Prim.line stemX stemStartY stemX stemEndY] else []) ++
  (if d ≠ NoteDuration.whole ∧ d ≠ NoteDuration.half ∧ d ≠ NoteDuration.quarter then
    flagPrims dir stemX stemEndY d
  else [])

/-- The full `renderNote`: parse the pitch string; on failure emit nothing
(`return null`); otherwise compute the steps and compose the primitives.
The inner `none` branch is unreachable because the regex only passes
uppercase letters `A`–`G`, which the base-offset table covers. -/
def renderNote (pitch : String) (d : NoteDuration) (clef : Clef) : List Prim :=
  match parsePitch pitch with
  | none => []
  | some (noteName, octave) =>
      match getNoteStepsFromC4 noteName octave with
      | none => []
      | some steps => notePrims steps clef d

/-- From `renderClef`: the standalone clef glyph drawn next to the staff for
note requests (`x=10`, treble `y=165 fontSize=90`, bass `y=145
fontSize=80`; no `textAnchor`). -/
def renderClef (clef : Clef) : Prim :=
  if clef = Clef.treble then Prim.text 10 165 90 false "𝄞"
  else Prim.text 10 145 80 false "𝄢"

/-- From `renderSymbol` at the default width (centerX = 150): a `text`-type
symbol is one centered italic text primitive with the literal value; a
`shape`-type symbol dispatches on the closed catalog, falling through to
the centered `"?"` placeholder. Coordinates of composite glyphs
(`fermata`, `repeat_start`) are written absolute, their `translate`
offsets applied. -/
def renderSymbol (ty : SymType) (value : String) : List Prim :=
  match ty with
  | SymType.text => [Prim.text 150 150 60 true value]
  | SymType.shape =>
      if value = "sharp" then [Prim.text 150 160 100 true "♯"]
      else if value = "flat" then [Prim.text 150 160 100 true "♭"]
      else if value = "natural" then [Prim.text 150 160 100 true "♮"]
      else if value = "fermata" then
        [Prim.qpath 120 140 150 110 180 140, Prim.circle 150 130 4]
      else if value = "treble_clef" then [Prim.text 150 190 150 true "𝄞"]
      else if value = "bass_clef" then [Prim.text 150 170 120 true "𝄢"]
      else if value = "repeat_start" then
        [Prim.rect 130 90 5 100, Prim.rect 140 90 2 100,
         Prim.circle 150 130 4, Prim.circle 150 150 4]
      else if value = "tie" then [Prim.qpath 100 130 150 170 200 130]
      else if value = "whole_rest" then [Prim.rect 140 120 20 10]
      else if value = "half_rest" then [Prim.rect 140 130 20 10]
      else if value = "quarter_rest" then [Prim.text 150 170 120 true "𝄽"]
      else if value = "eighth_rest" then [Prim.text 150 160 100 true "𝄾"]
      else [Prim.text 150 160 0 true "?"]

/-- Note payload of `RenderData` in `types.ts` (the accidental flags are
never read by the renderer). -/
structure NoteData where
  pitch : String
  duration : NoteDuration
  hasSharp : Option Bool := none
  hasFlat : Option Bool := none
  hasNatural : Option Bool := none
deriving DecidableEq, Repr

/-- Symbol payload of `RenderData` in `types.ts`. -/
structure SymData where
  type : SymType
  value : String
  label : Option String := none
deriving DecidableEq, Repr

/-- The `RenderData` record from `types.ts`: optional clef, optional note, optional
symbol. -/
structure RenderData where
  clef : Option Clef := none
  note : Option NoteData := none
  symbol : Option SymData := none
deriving DecidableEq, Repr

/-- The five staff-line y-coordinates:
`[0,1,2,3,4].map(i => 100 + i * 20)`. -/
def staffLineYs : List Int :=
  (List.range 5).map (fun i => 100 + (i : Int) * 20)

/-- From `isSymbolWithStaff`: the symbol values under which the composition
still draws staff lines —
`['whole_rest', 'half_rest', 'quarter_rest', 'eighth_rest']`. -/
def isSymbolWithStaff (symbol : Option SymData) : Bool :=
  match symbol with
  | some s => decide (s.value ∈ ["whole_rest", "half_rest", "quarter_rest", "eighth_rest"])
  | none => false

/-- The rendered scene, mirroring the three blocks of the component's SVG
in draw order: staff lines, then the standalone clef glyph, then the note
and/or symbol content. -/
structure Scene where
  staffLines : List Prim
  clefGlyph : List Prim
  content : List Prim
deriving DecidableEq, Repr

/-- The `Staff` component body at default width 300: draw the staff lines
iff a note is present or the symbol is staff-anchored; draw the standalone
clef iff a note is present; then the note primitives (if any) and the
symbol primitives (if any). `clef = data.clef || 'treble'`. -/
def render (data : RenderData) : Scene :=
  let clef := data.clef.getD Clef.treble
  { staffLines :=
      if data.note.isSome || isSymbolWithStaff data.symbol then
        staffLineYs.map (fun y => Prim.line 10 y (300 - 10) y)
      else []
    clefGlyph := if data.note.isSome then [renderClef clef] else []
    content :=
      (match data.note with
       | some n => renderNote n.pitch n.duration clef
       | none => []) ++
      (match data.symbol with
       | some s => renderSymbol s.type s.value
       | none => []) }

/-- A flag primitive: a quadratic path. -/
def isFlag : Prim → Bool
  | Prim.qpath _ _ _ _ _ _ => true
  | _ => false

/-- A stem primitive: a vertical line segment. -/
def isStem : Prim → Bool
  | Prim.line x1 _ x2 _ => x1 == x2
  | _ => false

/-- A ledger/staff-line primitive: a horizontal line segment. -/
def isHorizLine : Prim → Bool
  | Prim.line _ y1 _ y2 => y1 == y2
  | _ => false

/-- Number of flag primitives in a primitive list. -/
def countFlags (ps : List Prim) : Nat := ps.countP (fun p => isFlag p)

/-- Number of stem (vertical line) primitives in a primitive list. -/
def countStems (ps : List Prim) : Nat := ps.countP (fun p => isStem p)

/-- Number of horizontal-line primitives in a primitive list. -/
def countHorizLines (ps : List Prim) : Nat := ps.countP (fun p => isHorizLine p)

/-- The fill flags of the ellipse (notehead) primitives, in order. -/
def headFills (ps : List Prim) : List Bool :=
  ps.filterMap (fun p => match p with
    | Prim.ellipse _ _ _ _ f => some f
    | _ => none)

/-- The flag count the spec's duration table assigns. -/
def specFlagCount : NoteDuration → Nat
  | NoteDuration.eighth => 1
  | NoteDuration.sixteenth => 2
  | NoteDuration.thirtySecond => 3
  | _ => 0

/-- The shape-symbol catalog declared in `constants.ts` / `MUSICAL_SYMBOLS`. -/
def shapeCatalog : List String :=
  ["sharp", "flat", "natural", "fermata", "treble_clef", "bass_clef",
   "repeat_start", "tie", "whole_rest", "half_rest", "quarter_rest", "eighth_rest"]

end MaestroQuiz

namespace MaestroQuiz

/-- Any hit in the note-letter table is an offset between 0 and 6. -/
theorem noteMap_bounds (s : String) (b : Int) (h : noteMap s = some b) :
    0 ≤ b ∧ b ≤ 6 := by
  unfold noteMap at h
  split_ifs at h <;> simp_all <;> omega

/-- Unfolding step of the downward ledger loop when it does not run. -/
theorem ledgerBelow_nil (y ny : Int) (h : ny < y) : ledgerBelow y ny = [] := by
  rw [ledgerBelow]
  simp [Int.not_le.mpr h]

/-- Unfolding step of the downward ledger loop when it runs once. -/
theorem ledgerBelow_cons (y ny : Int) (h : y ≤ ny) :
    ledgerBelow y ny = y :: ledgerBelow (y + 20) ny := by
  rw [ledgerBelow]
  simp [h]

/-- Unfolding step of the upward ledger loop when it does not run. -/
theorem ledgerAbove_nil (y ny : Int) (h : y < ny) : ledgerAbove y ny = [] := by
  rw [ledgerAbove]
  simp [Int.not_le.mpr h]

/-- Unfolding step of the upward ledger loop when it runs once. -/
theorem ledgerAbove_cons (y ny : Int) (h : ny ≤ y) :
    ledgerAbove y ny = y :: ledgerAbove (y - 20) ny := by
  rw [ledgerAbove]
  simp [h]

/-- The downward loop emits exactly the grid points `y + 20k` up to `ny`. -/
theorem mem_ledgerBelow (y ny z : Int) :
    z ∈ ledgerBelow y ny ↔ ∃ k : Nat, z = y + 20 * k ∧ z ≤ ny := by
  constructor
  · induction y, ny using ledgerBelow.induct with
    | case1 y ny h ih =>
        intro hz
        rw [ledgerBelow_cons _ _ h] at hz
        rcases List.mem_cons.mp hz with rfl | hz2
        · exact ⟨0, by omega, h⟩
        · rcases ih hz2 with ⟨k, hk, hle⟩
          exact ⟨k + 1, by push_cast at hk ⊢; omega, hle⟩
    | case2 y ny h =>
        intro hz
        rw [ledgerBelow_nil _ _ (by omega)] at hz
        simp at hz
  · rintro ⟨k, rfl, hle⟩
    induction k generalizing y with
    | zero =>
        rw [ledgerBelow_cons _ _ (by omega)]
        simp
    | succ n ih =>
        have key : y + 20 * ((n + 1 : Nat) : Int) = (y + 20) + 20 * (n : Int) := by
          push_cast
          ring
        rw [ledgerBelow_cons _ _ (by omega)]
        rw [key] at hle ⊢
        exact List.mem_cons_of_mem _ (ih (y + 20) hle)

/-- The upward loop emits exactly the grid points `y - 20k` down to `ny`. -/
theorem mem_ledgerAbove (y ny z : Int) :
    z ∈ ledgerAbove y ny ↔ ∃ k : Nat, z = y - 20 * k ∧ ny ≤ z := by
  constructor
  · induction y, ny using ledgerAbove.induct with
    | case1 y ny h ih =>
        intro hz
        rw [ledgerAbove_cons _ _ h] at hz
        rcases List.mem_cons.mp hz with rfl | hz2
        · exact ⟨0, by omega, h⟩
        · rcases ih hz2 with ⟨k, hk, hle⟩
          exact ⟨k + 1, by push_cast at hk ⊢; omega, hle⟩
    | case2 y ny h =>
        intro hz
        rw [ledgerAbove_nil _ _ (by omega)] at hz
        simp at hz
  · rintro ⟨k, rfl, hle⟩
    induction k generalizing y with
    | zero =>
        rw [ledgerAbove_cons _ _ (by omega)]
        simp
    | succ n ih =>
        have key : y - 20 * ((n + 1 : Nat) : Int) = (y - 20) - 20 * (n : Int) := by
          push_cast
          ring
        rw [ledgerAbove_cons _ _ (by omega)]
        rw [key] at hle ⊢
        exact List.mem_cons_of_mem _ (ih (y - 20) hle)

/-- C1: for every letter in {C,D,E,F,G,A,B} (accepted case-insensitively,
expressed by the hypothesis that uppercasing the letter hits the
base-offset table) and every integer octave, `getNoteStepsFromC4` returns
`base + (octave - 4) * 7`; `getNoteStepsFromC4 "C" 4 = 0`; and the result
is strictly increasing in the combined (octave, letter-order) key. -/
theorem C1_pitch_arithmetic (l₁ l₂ : String) (o₁ o₂ b₁ b₂ : Int)
    (h₁ : noteMap (String.mk (l₁.toList.map Char.toUpper)) = some b₁)
    (h₂ : noteMap (String.mk (l₂.toList.map Char.toUpper)) = some b₂) :
    getNoteStepsFromC4 l₁ o₁ = some (b₁ + (o₁ - 4) * 7) ∧
    getNoteStepsFromC4 "C" 4 = some 0 ∧
    ((o₁ < o₂ ∨ (o₁ = o₂ ∧ b₁ < b₂)) →
      b₁ + (o₁ - 4) * 7 < b₂ + (o₂ - 4) * 7) := by
  refine ⟨?_, by decide, ?_⟩
  · unfold getNoteStepsFromC4
    rw [h₁]
    rfl
  · have hb₁ := noteMap_bounds _ _ h₁
    have hb₂ := noteMap_bounds _ _ h₂
    intro hkey
    rcases hkey with hlt | ⟨rfl, hlt⟩ <;> omega

/-- Witness for C1 at the lowercase letter `"c"` (octave 4) against `"D"`
(octave 5). -/
theorem C1_pitch_arithmetic_witness :
    getNoteStepsFromC4 "c" 4 = some (0 + ((4 : Int) - 4) * 7) ∧
    getNoteStepsFromC4 "C" 4 = some 0 ∧
    (((4 : Int) < 5 ∨ ((4 : Int) = 5 ∧ (0 : Int) < 1)) →
      (0 : Int) + ((4 : Int) - 4) * 7 < 1 + ((5 : Int) - 4) * 7) :=
  C1_pitch_arithmetic "c" "D" 4 5 0 1 (by decide) (by decide)

/-- C3: the stem direction is down iff the step is at or above the clef's
pivot (6 for treble — pitch B4 —, -6 for bass — pitch D3), up otherwise;
B4 stems down, A4 stems up, and a note exactly at the pivot stems down. -/
theorem C3_stem_direction (s : Int) (c : Clef) :
    (stemDirection s c = StemDir.down ↔ centerStep c ≤ s) ∧
    (stemDirection s c = StemDir.up ↔ s < centerStep c) ∧
    centerStep Clef.treble = 6 ∧
    centerStep Clef.bass = -6 ∧
    getNoteStepsFromC4 "B" 4 = some 6 ∧
    getNoteStepsFromC4 "D" 3 = some (-6) ∧
    getNoteStepsFromC4 "A" 4 = some 5 ∧
    stemDirection 6 Clef.treble = StemDir.down ∧
    stemDirection 5 Clef.treble = StemDir.up ∧
    stemDirection (centerStep c) c = StemDir.down := by
  refine ⟨?_, ?_, by decide, by decide, by decide, by decide, by decide,
    by decide, by decide, ?_⟩ <;> unfold stemDirection <;> split_ifs <;>
    simp_all

/-- C5: the notehead's vertical coordinate is an affine function of the
step (`200 - 10·s` for treble, `80 - 10·s` for bass) that strictly
decreases as the step increases; the mapping is a pure function of its
inputs (the repeated-evaluation conjunct holds by reflexivity); and the
treble and bass mappings differ only by the constant offset 120 — the
per-step spacing and its sign agree. -/
theorem C5_noteY_affine (c : Clef) (s s₁ s₂ : Int) :
    noteY c s = (if c = Clef.treble then 200 else 80) - 10 * s ∧
    (s₁ < s₂ → noteY c s₂ < noteY c s₁) ∧
    noteY c s = noteY c s ∧
    noteY Clef.treble s - noteY Clef.bass s = 120 := by
  refine ⟨?_, ?_, rfl, ?_⟩
  · cases c <;> simp [noteY] <;> ring
  · intro hlt
    cases c <;> simp [noteY] <;> omega
  · simp [noteY]
    ring

/-- Witness for C5: the treble coordinate strictly drops from step 2 to
step 3. -/
theorem C5_noteY_affine_witness :
    noteY Clef.treble 3 < noteY Clef.treble 2 :=
  (C5_noteY_affine Clef.treble 2 2 3).2.1 (by decide)

/-- C8: a note request whose pitch string fails the letter+octave pattern
emits no primitives (the composer returns the empty bundle, it does not
throw). -/
theorem C8_malformed_pitch (s : String) (d : NoteDuration) (c : Clef)
    (h : parsePitch s = none) : renderNote s d c = [] := by
  unfold renderNote
  rw [h]

/-- Witness for C8 at the malformed pitch string `"X"`. -/
theorem C8_malformed_pitch_witness :
    renderNote "X" NoteDuration.quarter Clef.treble = [] :=
  C8_malformed_pitch "X" NoteDuration.quarter Clef.treble (by decide)

/-- C2: a note whose vertical coordinate lies inside the staff block or
exactly on its top (100) or bottom (180) line gets zero ledger lines;
outside the block, the ledger lines are exactly the grid points at the
20-unit line spacing starting one spacing unit beyond the nearest staff
boundary (80 above, 200 below) and stepping outward as far as `ny`; a
note exactly one spacing unit beyond either boundary gets exactly one
ledger line at that boundary-adjacent coordinate. -/
theorem C2_ledger_lines (ny z : Int) :
    (100 ≤ ny → ny ≤ 180 → ledgerLines ny = []) ∧
    (z ∈ ledgerLines ny ↔
      ((ny < 100 ∧ ∃ k : Nat, z = 80 - 20 * k ∧ ny ≤ z) ∨
       (180 < ny ∧ ∃ k : Nat, z = 200 + 20 * k ∧ z ≤ ny))) ∧
    ledgerLines 80 = [80] ∧
    ledgerLines 200 = [200] := by
  refine ⟨?_, ?_, ?_, ?_⟩
  · intro h1 h2
    rw [ledgerLines, if_neg (by omega), if_neg (by omega)]
    rfl
  · rw [ledgerLines]
    by_cases h1 : ny < 100
    · rw [if_pos h1, if_neg (by omega)]
      rw [List.append_nil, mem_ledgerAbove]
      constructor
      · rintro ⟨k, rfl, hk⟩
        exact Or.inl ⟨h1, k, by norm_num, hk⟩
      · rintro (⟨_, k, rfl, hk⟩ | ⟨h2, _⟩)
        · exact ⟨k, by norm_num, hk⟩
        · omega
    · rw [if_neg h1]
      by_cases h2 : 180 < ny
      · rw [if_pos h2]
        rw [List.nil_append, mem_ledgerBelow]
        constructor
        · rintro ⟨k, rfl, hk⟩
          exact Or.inr ⟨h2, k, by norm_num, hk⟩
        · rintro (⟨h3, _⟩ | ⟨_, k, rfl, hk⟩)
          · omega
          · exact ⟨k, by norm_num, hk⟩
      · rw [if_neg h2]
        simp
        constructor <;> intro h <;> omega
  · rw [ledgerLines, if_pos (by norm_num), if_neg (by norm_num),
      ledgerAbove_cons _ _ (by norm_num), ledgerAbove_nil _ _ (by norm_num)]
    rfl
  · rw [ledgerLines, if_neg (by norm_num), if_pos (by norm_num),
      ledgerBelow_cons _ _ (by norm_num), ledgerBelow_nil _ _ (by norm_num)]
    rfl

/-- Witness for C2 at a coordinate on the staff (150) and one beyond the
bottom boundary (200). -/
theorem C2_ledger_lines_witness :
    ledgerLines 150 = [] ∧ ledgerLines 200 = [200] :=
  ⟨(C2_ledger_lines 150 0).1 (by norm_num) (by norm_num),
   (C2_ledger_lines 200 0).2.2.2⟩

/-- Flag count distributes over concatenation. -/
theorem countFlags_append (xs ys : List Prim) :
    countFlags (xs ++ ys) = countFlags xs + countFlags ys := by
  simp [countFlags, List.countP_append]

/-- Stem count distributes over concatenation. -/
theorem countStems_append (xs ys : List Prim) :
    countStems (xs ++ ys) = countStems xs + countStems ys := by
  simp [countStems, List.countP_append]

/-- Notehead fills distribute over concatenation. -/
theorem headFills_append (xs ys : List Prim) :
    headFills (xs ++ ys) = headFills xs ++ headFills ys := by
  simp [headFills, List.filterMap_append]

/-- A list of horizontal segments (such as ledger lines) has no flags. -/
theorem countFlags_lineMap (l : List Int) (a b : Int) :
    countFlags (l.map (fun y => Prim.line a y b y)) = 0 := by
  rw [countFlags, List.countP_eq_zero]
  rintro p hp
  rcases List.mem_map.mp hp with ⟨y, _, rfl⟩
  simp [isFlag]

/-- A list of horizontal segments with distinct endpoints has no stems. -/
theorem countStems_lineMap (l : List Int) (a b : Int) (h : a ≠ b) :
    countStems (l.map (fun y => Prim.line a y b y)) = 0 := by
  rw [countStems, List.countP_eq_zero]
  rintro p hp
  rcases List.mem_map.mp hp with ⟨y, _, rfl⟩
  simp [isStem, h]

/-- A list of line segments contains no notehead. -/
theorem headFills_lineMap (l : List Int) (a b : Int) :
    headFills (l.map (fun y => Prim.line a y b y)) = [] := by
  rw [headFills, List.filterMap_eq_nil_iff]
  rintro p hp
  rcases List.mem_map.mp hp with ⟨y, _, rfl⟩
  rfl

/-- C4: across both clefs and both stem directions, the duration alone
determines the glyph: hollow notehead exactly for whole and half, a stem
for every duration except whole, and 0/0/0/1/2/3 flag paths for
whole/half/quarter/eighth/sixteenth/thirty-second. -/
theorem C4_duration_glyphs (steps : Int) (c : Clef) (d : NoteDuration) :
    headFills (notePrims steps c d) =
      [if d = NoteDuration.whole ∨ d = NoteDuration.half then false else true] ∧
    countStems (notePrims steps c d) = (if d = NoteDuration.whole then 0 else 1) ∧
    countFlags (notePrims steps c d) = specFlagCount d := by
  unfold notePrims flagPrims
  cases hdir : stemDirection steps c <;> cases d <;>
    simp [hdir, specFlagCount, countFlags_append, countStems_append, headFills_append,
      countFlags_lineMap, countStems_lineMap, headFills_lineMap,
      countFlags, countStems, headFills, List.countP_cons, isFlag, isStem]

/-- C6: symbol lookup is total — every declared catalog value yields a
non-empty primitive bundle, any shape value outside the catalog yields
the visible centered `"?"` placeholder rather than an error, and every
text-type symbol renders as a single centered text primitive carrying the
literal value. -/
theorem C6_symbol_lookup (v : String) :
    (v ∈ shapeCatalog → renderSymbol SymType.shape v ≠ []) ∧
    (v ∉ shapeCatalog → renderSymbol SymType.shape v = [Prim.text 150 160 0 true "?"]) ∧
    renderSymbol SymType.text v = [Prim.text 150 150 60 true v] := by
  refine ⟨?_, ?_, rfl⟩
  · intro hv
    fin_cases hv <;> decide
  · intro hv
    simp only [shapeCatalog, List.mem_cons, List.mem_singleton, not_or] at hv
    obtain ⟨h1, h2, h3, h4, h5, h6, h7, h8, h9, h10, h11, h12⟩ := hv
    simp [renderSymbol, h1, h2, h3, h4, h5, h6, h7, h8, h9, h10, h11, h12]

/-- Witness for C6: the declared value `"sharp"` yields a non-empty
bundle and the undeclared value `"mystery"` yields the placeholder. -/
theorem C6_symbol_lookup_witness :
    renderSymbol SymType.shape "sharp" ≠ [] ∧
    renderSymbol SymType.shape "mystery" = [Prim.text 150 160 0 true "?"] :=
  ⟨(C6_symbol_lookup "sharp").1 (by decide),
   (C6_symbol_lookup "mystery").2.1 (by decide)⟩

/-- C7: the composed scene contains staff lines iff the request carries a
note or a staff-anchored symbol (one of the four rest kinds), and it
contains a standalone clef glyph iff the request carries a note (a symbol
request never adds one — any clef drawn for a symbol could only be the
symbol's own glyph in the content block). -/
theorem C7_staff_and_clef_visibility (data : RenderData) :
    ((render data).staffLines ≠ [] ↔
      (data.note.isSome = true ∨ isSymbolWithStaff data.symbol = true)) ∧
    ((render data).clefGlyph ≠ [] ↔ data.note.isSome = true) := by
  have hs : (render data).staffLines =
      (if (data.note.isSome || isSymbolWithStaff data.symbol) = true then
        staffLineYs.map (fun y => Prim.line 10 y (300 - 10) y)
      else []) := rfl
  have hc : (render data).clefGlyph =
      (if data.note.isSome = true then [renderClef (data.clef.getD Clef.treble)]
      else []) := rfl
  constructor
  · rw [hs]
    by_cases h : (data.note.isSome || isSymbolWithStaff data.symbol) = true
    · rw [if_pos h]
      simp only [Bool.or_eq_true] at h
      constructor
      · intro _
        exact h
      · intro _
        decide
    · rw [if_neg h]
      simp only [Bool.or_eq_true] at h
      constructor
      · intro hne
        exact absurd rfl hne
      · intro hor
        exact absurd hor h
  · rw [hc]
    by_cases h : data.note.isSome = true
    · rw [if_pos h]
      constructor
      · intro _
        exact h
      · intro _
        simp
    · rw [if_neg h]
      constructor
      · intro hne
        exact absurd rfl hne
      · intro hsome
        exact absurd hsome h

/-- Witness for C7: a lone note request shows staff lines and a clef
glyph; a lone `"sharp"`-symbol request shows neither. -/
theorem C7_staff_and_clef_visibility_witness :
    (render { clef := none,
              note := some { pitch := "E4", duration := NoteDuration.quarter,
                             hasSharp := none, hasFlat := none, hasNatural := none },
              symbol := none }).staffLines ≠ [] ∧
    ¬ ((render { clef := none, note := none,
                 symbol := some { type := SymType.shape, value := "sharp",
                                  label := none } }).clefGlyph ≠ []) :=
  ⟨(C7_staff_and_clef_visibility _).1.mpr (Or.inl (by decide)),
   fun h => by simpa using (C7_staff_and_clef_visibility _).2.mp h⟩

/-- Inversion of the pitch pattern: a successful parse means the string
is exactly one uppercase letter `A`–`G` followed by one digit. -/
theorem parsePitch_inv (s : String) (p : String × Int)
    (h : parsePitch s = some p) :
    ∃ c d, s.toList = [c, d] ∧ 'A' ≤ c ∧ c ≤ 'G' ∧ '0' ≤ d ∧ d ≤ '9' := by
  unfold parsePitch at h
  split at h
  · next c d heq =>
      split_ifs at h with hcond
      exact ⟨c, d, heq, hcond.1.1, hcond.1.2, hcond.2.1, hcond.2.2⟩
  · simp at h

/-- Evaluation of `renderNote` on the whole-note middle C under the
treble clef: one ledger line just below the staff, a hollow notehead, no
stem, no flags. -/
theorem renderNote_C4_whole :
    renderNote "C4" NoteDuration.whole Clef.treble =
      [Prim.line 130 200 170 200, Prim.ellipse 150 200 16 11 false] := by
  have hp : parsePitch "C4" = some ("C", 4) := by decide
  have hg : getNoteStepsFromC4 "C" 4 = some 0 := by decide
  have h200 : ledgerLines 200 = [200] := by
    rw [ledgerLines, if_neg (by norm_num), if_pos (by norm_num),
      ledgerBelow_cons _ _ (by norm_num), ledgerBelow_nil _ _ (by norm_num)]
    rfl
  have hy : noteY Clef.treble 0 = 200 := by norm_num [noteY]
  simp only [renderNote, hp, hg]
  norm_num [notePrims, hy, h200, stemDirection, centerStep]

/-- C9: the request `{clef: treble, note: {pitch: E4, duration: quarter}}`
renders its notehead exactly on the bottom staff line (y = 180, the last
of the five staff lines), filled, with a stem and neither flags nor
ledger lines; the request `{note: {pitch: C4, duration: whole}}` under
the default treble clef renders exactly one ledger line below the staff
(y = 200) and no stem. -/
theorem C9_end_to_end :
    (render { clef := some Clef.treble,
              note := some { pitch := "E4", duration := NoteDuration.quarter,
                             hasSharp := none, hasFlat := none, hasNatural := none },
              symbol := none }).content =
      [Prim.ellipse 150 180 16 11 true, Prim.line 164 175 164 115] ∧
    staffLineYs = [100, 120, 140, 160, 180] ∧
    (render { clef := none,
              note := some { pitch := "C4", duration := NoteDuration.whole,
                             hasSharp := none, hasFlat := none, hasNatural := none },
              symbol := none }).content =
      [Prim.line 130 200 170 200, Prim.ellipse 150 200 16 11 false] ∧
    countHorizLines
      (render { clef := none,
                note := some { pitch := "C4", duration := NoteDuration.whole,
                               hasSharp := none, hasFlat := none, hasNatural := none },
                symbol := none }).content = 1 ∧
    countStems
      (render { clef := none,
                note := some { pitch := "C4", duration := NoteDuration.whole,
                               hasSharp := none, hasFlat := none, hasNatural := none },
                symbol := none }).content = 0 := by
  have hcontent : (render { clef := none,
                            note := some { pitch := "C4",
                                           duration := NoteDuration.whole,
                                           hasSharp := none, hasFlat := none,
                                           hasNatural := none },
                            symbol := none }).content =
      renderNote "C4" NoteDuration.whole Clef.treble ++ [] := rfl
  refine ⟨by decide, by decide, ?_, ?_, ?_⟩ <;>
    rw [hcontent, renderNote_C4_whole] <;> decide

/-- C10: at the rendering interface a note is drawn only when the pitch
string is exactly one uppercase letter `A`–`G` followed by one digit;
lowercase letters, multi-digit or negative octaves, and extra characters
are silently skipped — although the step arithmetic itself uppercases its
letter and accepts any integer octave. -/
theorem C10_pitch_gate :
    (∀ d c, renderNote "c4" d c = []) ∧
    renderNote "C10" NoteDuration.quarter Clef.treble = [] ∧
    renderNote "C-1" NoteDuration.quarter Clef.treble = [] ∧
    getNoteStepsFromC4 "c" 4 = some 0 ∧
    getNoteStepsFromC4 "C" (-1) = some (-35) ∧
    (∀ s d c, renderNote s d c ≠ [] →
      ∃ l o, s.toList = [l, o] ∧ 'A' ≤ l ∧ l ≤ 'G' ∧ '0' ≤ o ∧ o ≤ '9') := by
  have hc4 : parsePitch "c4" = none := by decide
  refine ⟨?_, by decide, by decide, by decide, by decide, ?_⟩
  · intro d c
    simp only [renderNote, hc4]
  · intro s d c h
    cases hp : parsePitch s with
    | none =>
        rw [renderNote, hp] at h
        exact absurd rfl h
    | some p =>
        exact parsePitch_inv s p hp

/-- Witness for C10: the valid pitch `"E4"` is drawn, so its string has
the uppercase-letter-digit shape. -/
theorem C10_pitch_gate_witness :
    ∃ l o, "E4".toList = [l, o] ∧ 'A' ≤ l ∧ l ≤ 'G' ∧ '0' ≤ o ∧ o ≤ '9' :=
  C10_pitch_gate.2.2.2.2.2 "E4" NoteDuration.quarter Clef.treble (by decide)

end MaestroQuiz
